import Mathlib

/-!
Verification of the durable append-only log storage engine of the
Name-That-Artist repository.

The embedded code is `services/append-log.js` (log writer, log reader, state
rebuilder, compactor, compaction scheduler) together with the storage facade
of `services/storage.js`.  JavaScript objects that serve as key→value state
are modelled as insertion-ordered association lists over `String` keys with
opaque payloads `V`; log files are modelled at two granularities:

* a line level (`FileSys`), where a log file is a raw string and entries are
  produced by an abstract parse function standing for `JSON.parse` — used for
  the writer/reader contracts;
* an entry level (`LogsDir`), where a log file is the list of entries its
  lines deserialize to — used for replay, compaction and backup claims.

The writer-assigned `timestamp` field of a log entry is never read by the
replay code (`rebuildStateFromLog`, source lines 89–110 of
`services/append-log.js`), so entries are modelled without it; the timestamps
that name backup files, which the compactor does compare, are modelled
explicitly as naturals.
-/

set_option autoImplicit false

namespace NameThatArtist

universe u

variable {V : Type u}

/-- A JavaScript object used as a key→value store: an association list in
insertion order.  Key order is irrelevant to every key→value claim proved
below; it is kept so that the operations mirror the source operationally. -/
abbrev Obj (V : Type u) := List (String × V)

/-- Property read `state[k]`: the value stored at key `k`, if present. -/
def objGet (o : Obj V) (k : String) : Option V :=
  (o.find? (fun p => p.1 = k)).map (fun p => p.2)

/-- Whether key `k` is a property of the object. -/
def objHas (o : Obj V) (k : String) : Bool :=
  o.any (fun p => p.1 = k)

/-- Property write `state[k] = v`: overwrites in place if the key exists,
otherwise appends the new property at the end (JS insertion order). -/
def objSet (o : Obj V) (k : String) (v : V) : Obj V :=
  if objHas o k then o.map (fun p => if p.1 = k then (k, v) else p)
  else o ++ [(k, v)]

/-- Property removal `delete state[k]`. -/
def objDelete (o : Obj V) (k : String) : Obj V :=
  o.filter (fun p => ¬ (p.1 = k))

/-- `Object.assign(o, src)`: copies every property of `src` into `o`,
in `src` order. -/
def objAssign (o : Obj V) (src : Obj V) : Obj V :=
  src.foldl (fun acc p => objSet acc p.1 p.2) o

/-- Operation types of `services/append-log.js` (`OpType`, lines 18–22):
a keyed `SET`, a whole-state `SET` carrying a `data` mapping, a `DELETE`
tombstone, and a `CHECKPOINT` carrying a full state snapshot. -/
inductive LogEntry (V : Type u) where
  | set (key : String) (value : V)
  | setAll (data : Obj V)
  | delete (key : String)
  | checkpoint (state : Obj V)

/-- One step of the replay loop of `rebuildStateFromLog`
(`services/append-log.js` lines 93–107).  For a keyed `SET` the source tests
`if (entry.key)`, which is false for the empty string (a falsy key falls
through to the absent `data` field and the entry is ignored); `DELETE`
removes the key; `CHECKPOINT` merges its snapshot via `Object.assign`. -/
def applyEntry (st : Obj V) : LogEntry V → Obj V
  | .set k v => if k = "" then st else objSet st k v
  | .setAll d => objAssign st d
  | .delete k => objDelete st k
  | .checkpoint s => objAssign st s

/-- Replay of a sequence of entries from the empty state: the fold of
`rebuildStateFromLog` (`services/append-log.js` lines 89–110). -/
def rebuildEntries (entries : List (LogEntry V)) : Obj V :=
  entries.foldl applyEntry []

/-- The keys of an object, in order. -/
def objKeys (o : Obj V) : List String :=
  o.map Prod.fst

/-- A JavaScript object never holds two properties with the same key. -/
def KeysNodup (o : Obj V) : Prop :=
  (objKeys o).Nodup

theorem objHas_eq_false_iff (o : Obj V) (k : String) :
    objHas o k = false ↔ k ∉ objKeys o := by
  simp only [objHas, objKeys, List.mem_map]
  rw [← Bool.not_eq_true, List.any_eq_true]
  simp only [decide_eq_true_eq]

theorem objKeys_objSet (o : Obj V) (k : String) (v : V) :
    objKeys (objSet o k v) = if objHas o k then objKeys o else objKeys o ++ [k] := by
  unfold objSet
  split
  · simp only [objKeys, List.map_map]
    apply List.map_congr_left
    intro p _
    by_cases h : p.1 = k
    · simp [h]
    · simp [h]
  · simp [objKeys]

theorem keysNodup_objSet (o : Obj V) (k : String) (v : V) (h : KeysNodup o) :
    KeysNodup (objSet o k v) := by
  unfold KeysNodup
  rw [objKeys_objSet]
  split
  · exact h
  · next hfalse =>
    have hk : k ∉ objKeys o := (objHas_eq_false_iff o k).mp (by
      revert hfalse
      cases objHas o k <;> simp)
    rw [List.nodup_append]
    exact ⟨h, by simp, by simp [hk]⟩

theorem keysNodup_objDelete (o : Obj V) (k : String) (h : KeysNodup o) :
    KeysNodup (objDelete o k) := by
  unfold KeysNodup objKeys at h ⊢
  unfold objDelete
  exact h.sublist ((List.filter_sublist o).map Prod.fst)

theorem keysNodup_objAssign (src : Obj V) :
    ∀ (o : Obj V), KeysNodup o → KeysNodup (objAssign o src) := by
  induction src with
  | nil => intro o h; simpa [objAssign] using h
  | cons p rest ih =>
    intro o h
    have hstep : objAssign o (p :: rest) = objAssign (objSet o p.1 p.2) rest := by
      simp [objAssign]
    rw [hstep]
    exact ih _ (keysNodup_objSet o p.1 p.2 h)

theorem keysNodup_applyEntry (st : Obj V) (e : LogEntry V) (h : KeysNodup st) :
    KeysNodup (applyEntry st e) := by
  cases e with
  | set k v =>
    by_cases hk : k = ""
    · simpa [applyEntry, hk] using h
    · simpa [applyEntry, hk] using keysNodup_objSet st k v h
  | setAll d => simpa [applyEntry] using keysNodup_objAssign d st h
  | delete k => simpa [applyEntry] using keysNodup_objDelete st k h
  | checkpoint s => simpa [applyEntry] using keysNodup_objAssign s st h

theorem keysNodup_foldl_applyEntry (entries : List (LogEntry V)) :
    ∀ (st : Obj V), KeysNodup st → KeysNodup (entries.foldl applyEntry st) := by
  induction entries with
  | nil => intro st h; simpa using h
  | cons e rest ih =>
    intro st h
    rw [List.foldl_cons]
    exact ih _ (keysNodup_applyEntry st e h)

/-- Replay always yields an object with pairwise distinct keys. -/
theorem keysNodup_rebuildEntries (entries : List (LogEntry V)) :
    KeysNodup (rebuildEntries entries) :=
  keysNodup_foldl_applyEntry entries [] (by simp [KeysNodup, objKeys])

theorem objSet_of_objHas_eq_false (o : Obj V) (k : String) (v : V)
    (h : objHas o k = false) : objSet o k v = o ++ [(k, v)] := by
  simp [objSet, h]

theorem objHas_eq_false_of_not_mem (o : Obj V) (k : String) (h : k ∉ objKeys o) :
    objHas o k = false :=
  (objHas_eq_false_iff o k).mpr h

/-- Merging a duplicate-free source whose keys are disjoint from the target
just concatenates the two objects. -/
theorem objAssign_of_disjoint (src : Obj V) :
    ∀ (o : Obj V), KeysNodup src → (∀ k ∈ objKeys src, k ∉ objKeys o) →
      objAssign o src = o ++ src := by
  induction src with
  | nil => intro o _ _; simp [objAssign]
  | cons p rest ih =>
    intro o hnd hdisj
    have hstep : objAssign o (p :: rest) = objAssign (objSet o p.1 p.2) rest := by
      simp [objAssign]
    have hp : p.1 ∉ objKeys o := hdisj p.1 (by simp [objKeys])
    have hset : objSet o p.1 p.2 = o ++ [(p.1, p.2)] :=
      objSet_of_objHas_eq_false o p.1 p.2 (objHas_eq_false_of_not_mem o p.1 hp)
    have hndrest : KeysNodup rest := by
      unfold KeysNodup objKeys at hnd ⊢
      exact (List.nodup_cons.mp hnd).2
    have hpnotrest : p.1 ∉ objKeys rest := by
      unfold KeysNodup objKeys at hnd
      exact (List.nodup_cons.mp hnd).1
    have hdisj' : ∀ k ∈ objKeys rest, k ∉ objKeys (o ++ [(p.1, p.2)]) := by
      intro k hk
      simp only [objKeys, List.map_append, List.mem_append, List.map_cons,
        List.map_nil, List.mem_singleton]
      have hkmem : k ∈ objKeys (p :: rest) := by
        unfold objKeys at hk ⊢
        rw [List.map_cons]
        exact List.mem_cons_of_mem _ hk
      rintro (hko | hkp)
      · exact hdisj k hkmem hko
      · exact hpnotrest (hkp ▸ hk)
    rw [hstep, hset, ih _ hndrest hdisj', List.append_assoc]
    rfl

/-- Merging a duplicate-free object into the empty object is the identity:
this is why a `CHECKPOINT` replays to exactly the state it embeds. -/
theorem objAssign_nil_eq_self (s : Obj V) (h : KeysNodup s) :
    objAssign [] s = s := by
  have := objAssign_of_disjoint s [] h (by simp [objKeys])
  simpa using this

theorem objGet_objDelete_self (o : Obj V) (k : String) :
    objGet (objDelete o k) k = none := by
  unfold objGet objDelete
  rw [List.find?_eq_none.mpr]
  · rfl
  · intro p hp
    have := List.of_mem_filter hp
    simpa using this

/-- Replaying the single-entry log written by the compactor recovers exactly
the checkpointed state. -/
theorem rebuildEntries_checkpoint_singleton (s : Obj V) (h : KeysNodup s) :
    rebuildEntries [LogEntry.checkpoint s] = s := by
  simp only [rebuildEntries, List.foldl_cons, List.foldl_nil, applyEntry]
  exact objAssign_nil_eq_self s h

theorem rebuildEntries_append (l₁ l₂ : List (LogEntry V)) :
    rebuildEntries (l₁ ++ l₂) = l₂.foldl applyEntry (rebuildEntries l₁) := by
  simp [rebuildEntries, List.foldl_append]

/-- The logs directory (`data/logs`) seen at entry granularity: each log name
maps to the entries of its `.log` file (`none` when the file does not exist),
and to the list of its backup files `name.log.backup.<timestamp>`, each a
copy of a former log.  The `startsWith` filter of the backup-cleanup loop
(source lines 148–152) partitions backups by log name, which is what the
per-name `backups` field records. -/
structure LogsDir (V : Type u) where
  logs : String → Option (List (LogEntry V))
  backups : String → List (Nat × List (LogEntry V))

/-- Entry-level `readLogEntries` (source lines 68–81): a missing file
(`ENOENT`) reads as the empty sequence. -/
def readLogEntriesE (name : String) (d : LogsDir V) : List (LogEntry V) :=
  (d.logs name).getD []

/-- `rebuildStateFromLog` (source lines 89–110): read the log and replay it
from the empty state. -/
def rebuildStateFromLog (name : String) (d : LogsDir V) : Obj V :=
  rebuildEntries (readLogEntriesE name d)

/-- Entry-level `appendLogEntry` (source lines 46–61): the file is created on
first append and grows by exactly the appended entry. -/
def appendEntryE (name : String) (e : LogEntry V) (d : LogsDir V) : LogsDir V :=
  { d with logs := fun n => if n = name then some (readLogEntriesE name d ++ [e]) else d.logs n }

/-- Insert one element into a list sorted by `f` in decreasing order. -/
def insertDescBy {α : Type u} (f : α → Nat) (x : α) : List α → List α
  | [] => [x]
  | y :: ys => if f y ≤ f x then x :: y :: ys else y :: insertDescBy f x ys

/-- Sort by `f` in decreasing order.  This models the newest-first ordering
`files.filter(..).sort().reverse()` of source lines 149–152: backup names of
one log differ only in their `Date.now()` suffix, and those fixed-width
decimal suffixes compare lexicographically exactly as the numbers they
denote. -/
def sortDescBy {α : Type u} (f : α → Nat) : List α → List α
  | [] => []
  | x :: xs => insertDescBy f x (sortDescBy f xs)

/-- The backup step of `compactLog` (source lines 134–141):
`fs.copyFile(logPath, backupPath)` copies the live log to a new backup named
by the current timestamp, failing with `ENOENT` when the log does not exist. -/
def copyFileToBackup (name : String) (t : Nat) (d : LogsDir V) :
    Except String (LogsDir V) :=
  match d.logs name with
  | none => .error "ENOENT"
  | some content =>
      .ok { d with
        backups := fun n => if n = name then d.backups n ++ [(t, content)] else d.backups n }

/-- `compactLog` (source lines 117–157): rebuild the current state, back up
the old log if it exists (a missing log's `ENOENT` is swallowed, lines
137–140), overwrite the log with the single serialized `CHECKPOINT` entry,
then delete all but the 3 newest backups of this log name. -/
def compactLog (name : String) (t : Nat) (d : LogsDir V) : LogsDir V :=
  let currentState := rebuildStateFromLog name d
  let cp : LogEntry V := .checkpoint currentState
  let d1 := match copyFileToBackup name t d with
    | .ok d' => d'
    | .error _ => d
  let d2 : LogsDir V :=
    { d1 with logs := fun n => if n = name then some [cp] else d1.logs n }
  { d2 with
    backups := fun n => if n = name then (sortDescBy Prod.fst (d2.backups n)).take 3 else d2.backups n }

theorem copyFileToBackup_logs (name : String) (t : Nat) (d : LogsDir V) :
    (match copyFileToBackup name t d with
      | .ok d' => d'
      | .error _ => d).logs = d.logs := by
  unfold copyFileToBackup
  cases d.logs name <;> rfl

/-- After compaction the log holds exactly one checkpoint entry embedding the
pre-compaction materialized state. -/
theorem compactLog_logs_self (name : String) (t : Nat) (d : LogsDir V) :
    (compactLog name t d).logs name =
      some [LogEntry.checkpoint (rebuildStateFromLog name d)] := by
  unfold compactLog
  simp [copyFileToBackup_logs]

theorem compactLog_logs_other (name n : String) (t : Nat) (d : LogsDir V)
    (h : n ≠ name) : (compactLog name t d).logs n = d.logs n := by
  unfold compactLog
  simp [copyFileToBackup_logs, h]

theorem readLogEntriesE_appendEntryE (name : String) (e : LogEntry V) (d : LogsDir V) :
    readLogEntriesE name (appendEntryE name e d) = readLogEntriesE name d ++ [e] := by
  simp [readLogEntriesE, appendEntryE]

theorem appendEntryE_backups (name : String) (e : LogEntry V) (d : LogsDir V) :
    (appendEntryE name e d).backups = d.backups := rfl

/-- Compaction leaves the materialized state unchanged: replaying the single
checkpoint the compactor writes recovers exactly the state replayed from the
old log. -/
theorem rebuildStateFromLog_compactLog (name : String) (t : Nat) (d : LogsDir V) :
    rebuildStateFromLog name (compactLog name t d) = rebuildStateFromLog name d := by
  show rebuildEntries (((compactLog name t d).logs name).getD []) = rebuildStateFromLog name d
  rw [compactLog_logs_self, Option.getD_some]
  exact rebuildEntries_checkpoint_singleton _ (keysNodup_rebuildEntries _)

/-- Claim C2: for any log content (any finite sequence of Set, Delete, and
Checkpoint entries, i.e. any `LogsDir` at any log name), the materialized
state returned by the state rebuilder after running `compactLog` on that log
equals the materialized state returned before compaction. -/
theorem checkpoint_transparency (name : String) (t : Nat) (d : LogsDir V) :
    rebuildStateFromLog name (compactLog name t d) = rebuildStateFromLog name d :=
  rebuildStateFromLog_compactLog name t d

/-- Claim C5: appending `Set(k,v)` then `Delete(k)` to a log, then running
`compactLog`, then appending nothing else, yields a rebuilt state in which
`k` is absent — the tombstone survives compaction.  The log may hold
arbitrary earlier content `d`. -/
theorem tombstone_persistence (name k : String) (v : V) (t : Nat) (d : LogsDir V) :
    objGet (rebuildStateFromLog name
      (compactLog name t (appendEntryE name (LogEntry.delete k)
        (appendEntryE name (LogEntry.set k v) d)))) k = none := by
  rw [rebuildStateFromLog_compactLog]
  unfold rebuildStateFromLog
  rw [readLogEntriesE_appendEntryE, readLogEntriesE_appendEntryE,
    rebuildEntries_append]
  simp only [List.foldl_cons, List.foldl_nil, applyEntry]
  exact objGet_objDelete_self _ k

theorem mem_insertDescBy {α : Type u} (f : α → Nat) (x y : α) :
    ∀ l : List α, y ∈ insertDescBy f x l ↔ y = x ∨ y ∈ l := by
  intro l
  induction l with
  | nil => simp [insertDescBy]
  | cons z zs ih =>
    unfold insertDescBy
    split
    · simp [List.mem_cons]
    · simp only [List.mem_cons, ih]
      tauto

theorem mem_sortDescBy {α : Type u} (f : α → Nat) (y : α) :
    ∀ l : List α, y ∈ sortDescBy f l ↔ y ∈ l := by
  intro l
  induction l with
  | nil => simp [sortDescBy]
  | cons z zs ih =>
    unfold sortDescBy
    rw [mem_insertDescBy]
    simp only [List.mem_cons, ih]

theorem insertDescBy_of_forall_le {α : Type u} (f : α → Nat) (a : α) (l : List α)
    (h : ∀ b ∈ l, f b ≤ f a) : insertDescBy f a l = a :: l := by
  cases l with
  | nil => rfl
  | cons b bs =>
    unfold insertDescBy
    rw [if_pos (h b (by simp))]

/-- Inserting a strictly newest element into a newest-first sorted list puts
it in front and leaves the rest untouched. -/
theorem sortDescBy_append_newest {α : Type u} (f : α → Nat) (x : α) :
    ∀ l : List α, l.Pairwise (fun a b => f b ≤ f a) → (∀ a ∈ l, f a < f x) →
      sortDescBy f (l ++ [x]) = x :: l := by
  intro l
  induction l with
  | nil => intro _ _; rfl
  | cons a l' ih =>
    intro hsorted hlt
    have hpair := List.pairwise_cons.mp hsorted
    have hstep : sortDescBy f ((a :: l') ++ [x]) =
        insertDescBy f a (sortDescBy f (l' ++ [x])) := rfl
    rw [hstep, ih hpair.2 (fun b hb => hlt b (List.mem_cons_of_mem a hb))]
    unfold insertDescBy
    rw [if_neg (by
      have := hlt a (by simp)
      omega)]
    rw [insertDescBy_of_forall_le f a l' hpair.1]

/-- The backup list for the compacted name just after the backup-copy step of
`compactLog`: unchanged when the log file is missing (the `ENOENT` of
`fs.copyFile` is swallowed), one timestamped copy appended otherwise. -/
def backupsAfterCopy (name : String) (t : Nat) (d : LogsDir V) :
    List (Nat × List (LogEntry V)) :=
  match d.logs name with
  | none => d.backups name
  | some content => d.backups name ++ [(t, content)]

theorem compactLog_backups_self (name : String) (t : Nat) (d : LogsDir V) :
    (compactLog name t d).backups name =
      (sortDescBy Prod.fst (backupsAfterCopy name t d)).take 3 := by
  unfold compactLog copyFileToBackup backupsAfterCopy
  cases d.logs name <;> simp

theorem compactLog_backups_other (name n : String) (t : Nat) (d : LogsDir V)
    (h : n ≠ name) : (compactLog name t d).backups n = d.backups n := by
  unfold compactLog copyFileToBackup
  cases d.logs name <;> simp [h]

/-- Claim C9: compacting a log name whose log file does not exist succeeds:
no backup artifact is created (every backup afterwards was already there
before) and the log file comes into existence holding exactly one
`Checkpoint` entry embedding the empty mapping.  The swallowed `ENOENT` of
the backup-copy step (source lines 137–140) is what makes the call total. -/
theorem compactLog_missing_log (name : String) (t : Nat) (d : LogsDir V)
    (h : d.logs name = none) :
    (compactLog name t d).logs name = some [LogEntry.checkpoint []] ∧
      (∀ b ∈ (compactLog name t d).backups name, b ∈ d.backups name) ∧
      (∀ n, n ≠ name → (compactLog name t d).logs n = d.logs n) := by
  refine ⟨?_, ?_, ?_⟩
  · rw [compactLog_logs_self]
    unfold rebuildStateFromLog readLogEntriesE
    rw [h]
    rfl
  · intro b hb
    rw [compactLog_backups_self] at hb
    have hmem : b ∈ sortDescBy Prod.fst (backupsAfterCopy name t d) :=
      List.take_subset 3 _ hb
    rw [mem_sortDescBy] at hmem
    unfold backupsAfterCopy at hmem
    rw [h] at hmem
    exact hmem
  · intro n hn
    exact compactLog_logs_other name n t d hn

/-- A concrete instance of claim C9: compacting the never-written log
`players` of an empty data directory. -/
theorem compactLog_missing_log_witness :
    (compactLog "players" 5 (⟨fun _ => none, fun _ => []⟩ : LogsDir Nat)).logs "players" =
      some [LogEntry.checkpoint []] :=
  (compactLog_missing_log "players" 5 ⟨fun _ => none, fun _ => []⟩ rfl).1

/-- The backup-file timestamps currently held for one log name. -/
def backupTimes (name : String) (d : LogsDir V) : List Nat :=
  (d.backups name).map Prod.fst

/-- Repeated compaction with at least one new entry appended before each
round: each step appends one entry to the log and then compacts it at the
step's `Date.now()` timestamp. -/
def runCompactions (name : String) (steps : List (Nat × LogEntry V))
    (d : LogsDir V) : LogsDir V :=
  steps.foldl (fun acc s => compactLog name s.1 (appendEntryE name s.2 acc)) d

theorem appendEntryE_logs_self (name : String) (e : LogEntry V) (d : LogsDir V) :
    (appendEntryE name e d).logs name = some (readLogEntriesE name d ++ [e]) := by
  simp [appendEntryE]

theorem backupsAfterCopy_of_some (name : String) (t : Nat) (d : LogsDir V)
    (c : List (LogEntry V)) (h : d.logs name = some c) :
    backupsAfterCopy name t d = d.backups name ++ [(t, c)] := by
  unfold backupsAfterCopy
  rw [h]

theorem take_append_take {α : Type u} (xs ys : List α) (n : Nat) :
    (xs ++ ys.take n).take n = (xs ++ ys).take n := by
  rw [List.take_append_eq_append_take, List.take_append_eq_append_take,
    List.take_take, Nat.min_eq_left (Nat.sub_le n xs.length)]

theorem runCompactions_backupTimes (name : String) :
    ∀ (steps : List (Nat × LogEntry V)) (d : LogsDir V),
      (d.backups name).Pairwise (fun a b => b.1 ≤ a.1) →
      (d.backups name).length ≤ 3 →
      (∀ b ∈ d.backups name, ∀ ts ∈ steps.map Prod.fst, b.1 < ts) →
      (steps.map Prod.fst).Pairwise (· < ·) →
      backupTimes name (runCompactions name steps d) =
        ((steps.map Prod.fst).reverse ++ backupTimes name d).take 3 := by
  intro steps
  induction steps with
  | nil =>
    intro d _ hlen _ _
    unfold runCompactions backupTimes
    simp only [List.foldl_nil, List.map_nil, List.reverse_nil, List.nil_append]
    rw [List.take_of_length_le]
    rw [List.length_map]
    exact hlen
  | cons s rest ih =>
    intro d hsort hlen hfuture hinc
    have hltall : ∀ a ∈ d.backups name, a.1 < s.1 :=
      fun a ha => hfuture a ha s.1 (by simp)
    rw [List.map_cons] at hinc
    have hinc' := List.pairwise_cons.mp hinc
    set d1 := appendEntryE name s.2 d with hd1
    set c := readLogEntriesE name d ++ [s.2] with hc
    have hlogs1 : d1.logs name = some c := appendEntryE_logs_self name s.2 d
    have hbk1 : d1.backups = d.backups := appendEntryE_backups name s.2 d
    set d' := compactLog name s.1 d1 with hd'
    have hbk' : d'.backups name = ((s.1, c) :: d.backups name).take 3 := by
      rw [hd', compactLog_backups_self,
        backupsAfterCopy_of_some name s.1 d1 c hlogs1, hbk1,
        sortDescBy_append_newest Prod.fst (s.1, c) (d.backups name) hsort hltall]
    have htimes : backupTimes name d' = (s.1 :: backupTimes name d).take 3 := by
      rw [backupTimes, hbk', List.map_take, List.map_cons]
      rfl
    have hsort' : (d'.backups name).Pairwise (fun a b => b.1 ≤ a.1) := by
      rw [hbk']
      refine List.Pairwise.sublist (List.take_sublist 3 _) ?_
      exact List.pairwise_cons.mpr
        ⟨fun b hb => Nat.le_of_lt (hltall b hb), hsort⟩
    have hlen' : (d'.backups name).length ≤ 3 := by
      rw [hbk', List.length_take]
      omega
    have hfuture' : ∀ b ∈ d'.backups name, ∀ ts ∈ rest.map Prod.fst, b.1 < ts := by
      intro b hb ts hts
      rw [hbk'] at hb
      have hb' := List.take_subset 3 _ hb
      rcases List.mem_cons.mp hb' with hhead | htail
      · rw [hhead]
        exact hinc'.1 ts hts
      · exact hfuture b htail ts (by simp [hts])
    have hrun : runCompactions name (s :: rest) d = runCompactions name rest d' := rfl
    rw [hrun, ih d' hsort' hlen' hfuture' hinc'.2, htimes, take_append_take]
    have hshape : (rest.map Prod.fst).reverse ++ s.1 :: backupTimes name d =
        ((s :: rest).map Prod.fst).reverse ++ backupTimes name d := by
      rw [List.map_cons, List.reverse_cons, List.append_assoc]
      rfl
    rw [hshape]

/-- Claim C6: starting from a dataset with no backup artifacts, after N ≥ 4
compactions at strictly increasing timestamps (each preceded by a fresh
append), exactly 3 backup artifacts remain for that log name and they carry
the 3 most recent compaction timestamps, newest first. -/
theorem backup_bound (name : String) (steps : List (Nat × LogEntry V))
    (d : LogsDir V) (hnone : d.backups name = [])
    (hinc : (steps.map Prod.fst).Chain' (· < ·)) (hlen : 4 ≤ steps.length) :
    backupTimes name (runCompactions name steps d) =
      ((steps.map Prod.fst).reverse).take 3 ∧
      (backupTimes name (runCompactions name steps d)).length = 3 := by
  have hpair : (steps.map Prod.fst).Pairwise (· < ·) :=
    List.chain'_iff_pairwise.mp hinc
  have h := runCompactions_backupTimes name steps d
    (by rw [hnone]; exact List.Pairwise.nil)
    (by rw [hnone]; simp)
    (by rw [hnone]; simp)
    hpair
  have hbd : backupTimes name d = [] := by simp [backupTimes, hnone]
  rw [hbd, List.append_nil] at h
  refine ⟨h, ?_⟩
  rw [h, List.length_take, List.length_reverse, List.length_map]
  omega

/-- The four-step instance of claim C6: four append-then-compact rounds at
timestamps 1 < 2 < 3 < 4 leave backups timestamped 4, 3, 2. -/
theorem backup_bound_witness :
    backupTimes "players"
      (runCompactions "players"
        [(1, LogEntry.set "a" 1), (2, LogEntry.set "a" 2),
         (3, LogEntry.set "a" 3), (4, LogEntry.set "a" (4 : Nat))]
        ⟨fun _ => none, fun _ => []⟩) =
      (([(1, LogEntry.set "a" 1), (2, LogEntry.set "a" 2),
         (3, LogEntry.set "a" 3), (4, LogEntry.set "a" (4 : Nat))].map Prod.fst).reverse).take 3 :=
  (backup_bound "players" _ _ rfl
    (by exact (by norm_num [List.chain'_cons] : List.Chain' (· < ·) [1, 2, 3, 4]))
    (by decide)).1

/-- The mutable fields of `CompactionScheduler` (source lines 193–236):
`isRunning` and the handle of the pending `setInterval` timer. -/
structure SchedState where
  isRunning : Bool
  intervalId : Option Nat

/-- `CompactionScheduler.start` (source lines 204–223): a no-op while already
running, otherwise records the new repeating timer. -/
def schedStart (s : SchedState) (timer : Nat) : SchedState :=
  if s.isRunning then s else { isRunning := true, intervalId := some timer }

/-- `CompactionScheduler.stop` (source lines 228–235): cancels the pending
timer. -/
def schedStop (_ : SchedState) : SchedState :=
  { isRunning := false, intervalId := none }

/-- The body of one `setInterval` tick (source lines 208–220): the monitored
log names are visited in order; the per-name `needsCompaction`/`compactLog`
work — abstracted as `act`, whose `Except.error` results stand for raised
errors — sits inside a `try`/`catch` that logs the error and continues with
the next name, so the traversal is total. -/
def runTick (act : String → Except String Unit) :
    List String → List (String × Except String Unit)
  | [] => []
  | n :: rest => (n, act n) :: runTick act rest

/-- One whole tick as seen from the scheduler: the callback never touches
`isRunning` or `intervalId`, so the schedule survives any per-name failure. -/
def tickSched (s : SchedState) (act : String → Except String Unit)
    (names : List String) : SchedState × List (String × Except String Unit) :=
  (s, runTick act names)

theorem runTick_map_fst (act : String → Except String Unit) :
    ∀ names : List String, (runTick act names).map Prod.fst = names := by
  intro names
  induction names with
  | nil => rfl
  | cons n rest ih =>
    unfold runTick
    rw [List.map_cons, ih]

theorem runTick_mem (act : String → Except String Unit) :
    ∀ (names : List String), ∀ n ∈ names, (n, act n) ∈ runTick act names := by
  intro names
  induction names with
  | nil => intro n hn; cases hn
  | cons m rest ih =>
    intro n hn
    unfold runTick
    rcases List.mem_cons.mp hn with h | h
    · rw [h]; exact List.mem_cons_self _ _
    · exact List.mem_cons_of_mem _ (ih n h)

/-- Claim C8: during one tick of the running scheduler, a failure while
checking or compacting one monitored log name neither prevents the remaining
names of that tick from being processed (every monitored name gets an
outcome, in order, whatever `act` returns for earlier names) nor cancels the
schedule (the scheduler state, including the pending timer, is unchanged by
the tick). -/
theorem scheduler_survives_failures (s : SchedState)
    (act : String → Except String Unit) (names : List String) :
    (tickSched s act names).1 = s ∧
      ((tickSched s act names).2).map Prod.fst = names ∧
      (∀ n ∈ names, (n, act n) ∈ (tickSched s act names).2) :=
  ⟨rfl, runTick_map_fst act names, runTick_mem act names⟩

/-- The file system at line granularity: `files` is what the operating system
holds for each path after buffered writes, `flushed` is what has actually
been forced to persistent storage by an `fsync`.  A crash loses `files` and
keeps `flushed`. -/
structure FileSys where
  files : String → Option (List Char)
  flushed : String → Option (List Char)

/-- The log file path `path.join(LOGS_DIR, logName + ".log")`. -/
def logPath (name : String) : String :=
  "data/logs/" ++ name ++ ".log"

/-- `fs.appendFile(p, data, { flag: "a" })`: opens for append (creating the
file if needed), writes `data`, closes.  It performs no `fsync`, so the
flushed view is untouched.  `ok` is the oracle for the underlying storage
write accepting or rejecting the operation; a rejection surfaces as a raised
error. -/
def appendFileJs (fs : FileSys) (p : String) (data : List Char) (ok : Bool) :
    Except String FileSys :=
  if ok then
    .ok { files := fun q => if q = p then some ((fs.files p).getD [] ++ data) else fs.files q,
          flushed := fs.flushed }
  else .error "EIO"

/-- `appendLogEntry` (source lines 46–61): serializes the timestamped entry
to a single line — `JSON.stringify` is the external builtin `ser`, which
never emits a newline — and appends that line plus `"\n"` via
`fs.appendFile`. -/
def appendLogEntry (ser : LogEntry V → List Char) (name : String) (e : LogEntry V)
    (ok : Bool) (fs : FileSys) : Except String FileSys :=
  appendFileJs fs (logPath name) (ser e ++ ['\n']) ok

/-- Claim C4, evaluated on the source: a successful `appendLogEntry` appends
exactly one complete serialized line to the log file and propagates an
underlying write failure as a raised error — but it returns with the flushed
(persistent) view of the file unchanged, because `fs.appendFile` performs no
`fsync`.  The claim's "returns only after the forced flush to persistent
storage has completed" is therefore false of the code as written (the code's
own comment at line 58 and the repository audit report both call for the
`fsync` that is missing here). -/
theorem appendLogEntry_returns_without_flush (ser : LogEntry V → List Char)
    (name : String) (e : LogEntry V) (fs : FileSys) :
    appendLogEntry ser name e true fs =
      Except.ok
        { files := fun q => if q = logPath name then
            some ((fs.files (logPath name)).getD [] ++ (ser e ++ ['\n']))
          else fs.files q,
          flushed := fs.flushed } ∧
      appendLogEntry ser name e false fs = Except.error "EIO" :=
  ⟨rfl, rfl⟩

/-- JavaScript whitespace as far as log content is concerned (`trim`). -/
def isJsWs (c : Char) : Bool :=
  c = ' ' ∨ c = '\n' ∨ c = '\t' ∨ c = '\r'

/-- `content.trim()`: strips leading and trailing whitespace. -/
def trimChars (s : List Char) : List Char :=
  ((s.dropWhile isJsWs).reverse.dropWhile isJsWs).reverse

/-- `content.split("\n")`. -/
def splitOnNl : List Char → List (List Char)
  | [] => [[]]
  | c :: rest =>
    if c = '\n' then [] :: splitOnNl rest
    else match splitOnNl rest with
      | [] => [[c]]
      | l :: ls => (c :: l) :: ls

/-- `lines.map(line => JSON.parse(line))`: the lines are parsed left to
right and the first malformed line raises, aborting the whole read.
`JSON.parse` is the external builtin `parse`; a malformed line is one on
which it returns `none`, and its raised `SyntaxError` is the error value. -/
def parseAllLines (parse : List Char → Option (LogEntry V)) :
    List (List Char) → Except String (List (LogEntry V))
  | [] => .ok []
  | l :: rest =>
    match parse l with
    | none => .error "SyntaxError"
    | some e =>
      match parseAllLines parse rest with
      | .error msg => .error msg
      | .ok es => .ok (e :: es)

/-- `readLogEntries` (source lines 68–81): a missing file (`ENOENT`) reads
as the empty sequence; otherwise the content is trimmed, split on newlines,
empty lines are dropped, and every remaining line is parsed. -/
def readLogEntries (parse : List Char → Option (LogEntry V)) (name : String)
    (fs : FileSys) : Except String (List (LogEntry V)) :=
  match fs.files (logPath name) with
  | none => .ok []
  | some content =>
      parseAllLines parse ((splitOnNl (trimChars content)).filter (fun l => 0 < l.length))

theorem parseAllLines_error_of_mem (parse : List Char → Option (LogEntry V)) :
    ∀ (lines : List (List Char)) (l : List Char), l ∈ lines → parse l = none →
      parseAllLines parse lines = Except.error "SyntaxError" := by
  intro lines
  induction lines with
  | nil => intro l hl; cases hl
  | cons a rest ih =>
    intro l hl hparse
    unfold parseAllLines
    cases hpa : parse a with
    | none => rfl
    | some e =>
      rcases List.mem_cons.mp hl with h | h
      · rw [h] at hparse
        rw [hparse] at hpa
        exact Option.noConfusion hpa
      · rw [ih l h hparse]

/-- Claim C7: a log file containing a malformed (unparseable) line among the
lines selected for replay makes `readLogEntries` fail for the whole read
with the parser's raised error rather than silently skipping the line, while
a log name whose file does not exist reads as the empty sequence without
error. -/
theorem readLogEntries_malformed_fatal (parse : List Char → Option (LogEntry V))
    (fs : FileSys) (name : String) :
    (fs.files (logPath name) = none → readLogEntries parse name fs = Except.ok []) ∧
      (∀ content l, fs.files (logPath name) = some content →
        l ∈ (splitOnNl (trimChars content)).filter (fun s => 0 < s.length) →
        parse l = none →
        readLogEntries parse name fs = Except.error "SyntaxError") := by
  constructor
  · intro h
    unfold readLogEntries
    rw [h]
  · intro content l hfile hl hparse
    unfold readLogEntries
    rw [hfile]
    exact parseAllLines_error_of_mem parse _ l hl hparse

/-- A concrete instance of claim C7: a two-line `players` log whose second
line is unparseable makes the read fail, and the never-written `tokens` log
reads as empty. -/
theorem readLogEntries_malformed_fatal_witness :
    readLogEntries
        (fun l => if l = ['g', 'o'] then some (LogEntry.set "k" (0 : Nat)) else none)
        "players"
        ⟨fun p => if p = logPath "players" then some ['g', 'o', '\n', 'b', 'a'] else none,
         fun _ => none⟩ =
      Except.error "SyntaxError" ∧
    readLogEntries
        (fun l => if l = ['g', 'o'] then some (LogEntry.set "k" (0 : Nat)) else none)
        "tokens"
        ⟨fun p => if p = logPath "players" then some ['g', 'o', '\n', 'b', 'a'] else none,
         fun _ => none⟩ =
      Except.ok [] :=
  ⟨(readLogEntries_malformed_fatal _ _ "players").2 ['g', 'o', '\n', 'b', 'a']
      ['b', 'a'] rfl (by decide) rfl,
   (readLogEntries_malformed_fatal _ _ "tokens").1 rfl⟩

/-- Modelled from the spec: the progressive-storage version of
`services/storage.js` — whose `updatePlayerStats`, `saveGameState` and
`clearGameState` append to the dataset's log before rewriting the snapshot,
and whose readers fall back to log replay — is not among the provided
sources; only its integration tests, its documentation
(`IMPLEMENTATION_SUMMARY.md`, `AUDIT_REPORT.md`) and its callers are.  Per
spec §4.6 and §6, the facade state is, per dataset name, the durable log
and the optional full-state snapshot file. -/
structure Store (V : Type u) where
  logs : String → List (LogEntry V)
  snapshots : String → Option (Obj V)

/-- Modelled from the spec: write step 1 of §4.6 — append the operation's
`Set`/`Delete` entry to the dataset's log (durable). -/
def facadeAppend (ds : String) (e : LogEntry V) (st : Store V) : Store V :=
  { st with logs := fun n => if n = ds then st.logs ds ++ [e] else st.logs n }

/-- Modelled from the spec: write step 2 of §4.6 — write/update the
full-state snapshot for the dataset.  `snapOk` is the oracle for the
snapshot write succeeding; the log append has already happened either way,
which is what makes the ordering of the two writes observable. -/
def facadeWriteSnapshot (ds : String) (snapOk : Bool) (st : Store V) : Store V :=
  if snapOk then
    { st with snapshots := fun n =>
        if n = ds then some (rebuildEntries (st.logs ds)) else st.snapshots n }
  else st

/-- Modelled from the spec: `updatePlayerStats` appends the player's `Set`
entry to the `players` log, then rewrites the `players` snapshot. -/
def updatePlayerStatsW (userId : String) (v : V) (snapOk : Bool) (st : Store V) : Store V :=
  facadeWriteSnapshot "players" snapOk (facadeAppend "players" (LogEntry.set userId v) st)

/-- Modelled from the spec: `saveGameState` appends the channel's `Set`
entry to the `game_state` log, then rewrites the `game_state` snapshot. -/
def saveGameStateW (channelId : String) (v : V) (snapOk : Bool) (st : Store V) : Store V :=
  facadeWriteSnapshot "game_state" snapOk (facadeAppend "game_state" (LogEntry.set channelId v) st)

/-- Modelled from the spec: `clearGameState` appends the channel's `Delete`
tombstone to the `game_state` log, then rewrites the `game_state` snapshot. -/
def clearGameStateW (channelId : String) (snapOk : Bool) (st : Store V) : Store V :=
  facadeWriteSnapshot "game_state" snapOk (facadeAppend "game_state" (LogEntry.delete channelId) st)

/-- Modelled from the spec: read path of §4.6 — return the snapshot when it
exists, otherwise rebuild the dataset's state by replaying its log. -/
def getAllR (ds : String) (st : Store V) : Obj V :=
  match st.snapshots ds with
  | some o => o
  | none => rebuildEntries (st.logs ds)

/-- Modelled from the spec: single-key read on top of `getAllR`. -/
def getR (ds k : String) (st : Store V) : Option V :=
  objGet (getAllR ds st) k

theorem facadeWriteSnapshot_logs (ds : String) (snapOk : Bool) (st : Store V) :
    (facadeWriteSnapshot ds snapOk st).logs = st.logs := by
  unfold facadeWriteSnapshot
  split <;> rfl

/-- Claim C1: each write entry point of the storage facade appends the
corresponding `Set`/`Delete` entry to its dataset's log before writing the
snapshot: whatever the snapshot write does (`snapOk` arbitrary), after the
call the log holds the old content followed by exactly the appended entry. -/
theorem facade_write_appends_to_log (st : Store V) (userId channelId : String)
    (v w : V) (snapOk : Bool) :
    (updatePlayerStatsW userId v snapOk st).logs "players" =
        st.logs "players" ++ [LogEntry.set userId v] ∧
      (saveGameStateW channelId w snapOk st).logs "game_state" =
        st.logs "game_state" ++ [LogEntry.set channelId w] ∧
      (clearGameStateW channelId snapOk st).logs "game_state" =
        st.logs "game_state" ++ [LogEntry.delete channelId] := by
  refine ⟨?_, ?_, ?_⟩ <;>
    simp [updatePlayerStatsW, saveGameStateW, clearGameStateW,
      facadeWriteSnapshot_logs, facadeAppend]

/-- Claim C3: when a dataset's snapshot file is absent, the facade's read
entry points return exactly the mapping obtained by replaying the dataset's
log — so every durably appended write is still visible after the snapshot
is deleted. -/
theorem read_falls_back_to_log_replay (st : Store V) (ds : String)
    (h : st.snapshots ds = none) :
    getAllR ds st = rebuildEntries (st.logs ds) ∧
      (∀ k, getR ds k st = objGet (rebuildEntries (st.logs ds)) k) := by
  constructor
  · unfold getAllR
    rw [h]
  · intro k
    unfold getR getAllR
    rw [h]

/-- A concrete instance of claim C3: with the `players` snapshot absent, the
read returns the replay of the `players` log. -/
theorem read_falls_back_to_log_replay_witness :
    getAllR "players"
        (⟨fun _ => [LogEntry.set "u1" (100 : Nat)], fun _ => none⟩ : Store Nat) =
      rebuildEntries
        ((⟨fun _ => [LogEntry.set "u1" (100 : Nat)], fun _ => none⟩ : Store Nat).logs "players") :=
  (read_falls_back_to_log_replay _ "players" rfl).1

/-- One element of a player's `gamesHistory` (`services/storage.js`
lines 161–165): the game's date, score, and whether the player won. -/
structure GameRecord where
  date : Nat
  score : Int
  isWinner : Bool
deriving DecidableEq

/-- A stored player record (`services/storage.js` lines 119–128 and
140–149). -/
structure PlayerStats where
  userId : String
  username : String
  totalGames : Int
  totalWins : Int
  totalScore : Int
  averageScore : Int
  bestScore : Int
  gamesHistory : List GameRecord

/-- `Math.round(a / b)` on the exact rational `a / b`: the floor of
`a / b + 1 / 2`, which is JavaScript's round-half-toward-positive-infinity.
(The source computes this on floats; on the integer scores involved the
exact rational model is the intended value.) -/
def jsMathRound (a b : Int) : Int :=
  Int.fdiv (2 * a + b) (2 * b)

/-- The default record for a player who has no stored stats yet
(`services/storage.js` lines 140–149). -/
def defaultStats (userId username : String) : PlayerStats :=
  { userId := userId, username := username, totalGames := 0, totalWins := 0,
    totalScore := 0, averageScore := 0, bestScore := 0, gamesHistory := [] }

/-- The stats computation of `updatePlayerStats` (`services/storage.js`
lines 138–176): take the stored record or a fresh default, refresh the
username, bump the counters, push the new game onto `gamesHistory`, and trim
the history to its last 50 entries (`slice(-50)`, lines 167–170). -/
def updatePlayerStats (old : Option PlayerStats) (userId username : String)
    (score : Int) (isWinner : Bool) (now : Nat) : PlayerStats :=
  let stats := old.getD (defaultStats userId username)
  let totalGames := stats.totalGames + 1
  let totalScore := stats.totalScore + score
  let pushed := stats.gamesHistory ++ [⟨now, score, isWinner⟩]
  { userId := stats.userId,
    username := username,
    totalGames := totalGames,
    totalWins := stats.totalWins + (if isWinner then 1 else 0),
    totalScore := totalScore,
    averageScore := jsMathRound totalScore totalGames,
    bestScore := max stats.bestScore score,
    gamesHistory := if 50 < pushed.length then pushed.drop (pushed.length - 50) else pushed }

/-- `players[userId] = stats` followed by `savePlayers(players)`
(`services/storage.js` lines 172–173): the updated record is stored under
the player's id. -/
def updatePlayerStatsMap (players : Obj PlayerStats) (userId username : String)
    (score : Int) (isWinner : Bool) (now : Nat) : Obj PlayerStats :=
  objSet players userId
    (updatePlayerStats (objGet players userId) userId username score isWinner now)

theorem find?_append_of_none {α : Type u} (p : α → Bool) (l₂ : List α) :
    ∀ l₁ : List α, l₁.find? p = none → (l₁ ++ l₂).find? p = l₂.find? p := by
  intro l₁
  induction l₁ with
  | nil => intro _; rfl
  | cons a t ih =>
    intro h
    cases hpa : p a with
    | true =>
      rw [List.find?_cons_of_pos _ hpa] at h
      exact Option.noConfusion h
    | false =>
      have hpa' : ¬ p a = true := by rw [hpa]; exact Bool.false_ne_true
      rw [List.find?_cons_of_neg _ hpa'] at h
      rw [List.cons_append, List.find?_cons_of_neg _ hpa']
      exact ih h

theorem find?_map_replace (k : String) (v : V) :
    ∀ o : Obj V, objHas o k = true →
      (o.map (fun p => if p.1 = k then (k, v) else p)).find? (fun p => p.1 = k) =
        some (k, v) := by
  intro o
  induction o with
  | nil => intro h; exact Bool.noConfusion h
  | cons p rest ih =>
    intro h
    by_cases hpk : p.1 = k
    · simp [hpk, List.find?_cons]
    · have h' : objHas rest k = true := by
        unfold objHas at h ⊢
        rw [List.any_cons] at h
        simpa [hpk] using h
      simpa [hpk, List.find?_cons] using ih h'

theorem objGet_objSet_self (o : Obj V) (k : String) (v : V) :
    objGet (objSet o k v) k = some v := by
  unfold objGet objSet
  split
  · next h =>
    rw [find?_map_replace k v o h]
    rfl
  · next h =>
    have hnone : o.find? (fun p => decide (p.1 = k)) = none := by
      rw [List.find?_eq_none]
      intro p hp hpk
      have hk : k ∈ objKeys o := by
        unfold objKeys
        rw [List.mem_map]
        exact ⟨p, hp, of_decide_eq_true hpk⟩
      exact absurd hk ((objHas_eq_false_iff o k).mp (by
        revert h
        cases objHas o k <;> simp))
    rw [find?_append_of_none _ _ o hnone]
    simp [List.find?_cons]

theorem getLast?_drop_of_lt {α : Type u} :
    ∀ (l : List α) (n : Nat), n < l.length → (l.drop n).getLast? = l.getLast? := by
  intro l
  induction l with
  | nil => intro n h; cases h
  | cons a t ih =>
    intro n h
    cases n with
    | zero => rfl
    | succ m =>
      rw [List.drop_succ_cons]
      have hm : m < t.length := by simpa using h
      rw [ih m hm]
      cases t with
      | nil => cases hm
      | cons b t' => rw [List.getLast?_cons_cons]

theorem trimmedHistory_spec (l : List GameRecord) (r : GameRecord) :
    (if 50 < (l ++ [r]).length then (l ++ [r]).drop ((l ++ [r]).length - 50)
      else l ++ [r]).length ≤ 50 ∧
      (if 50 < (l ++ [r]).length then (l ++ [r]).drop ((l ++ [r]).length - 50)
        else l ++ [r]).getLast? = some r ∧
      (if 50 < (l ++ [r]).length then (l ++ [r]).drop ((l ++ [r]).length - 50)
        else l ++ [r]) <:+ l ++ [r] := by
  by_cases h : 50 < (l ++ [r]).length
  · simp only [if_pos h]
    refine ⟨?_, ?_, List.drop_suffix _ _⟩
    · rw [List.length_drop]
      omega
    · rw [getLast?_drop_of_lt _ _ (by omega), List.getLast?_concat]
  · simp only [if_neg h]
    exact ⟨by omega, List.getLast?_concat _, List.suffix_refl _⟩

/-- Claim C10: after every `updatePlayerStats` call the stored record for
the player carries a `gamesHistory` of at most 50 entries; those entries are
the most recent games — a suffix of the old history followed by the new game
— and the entry for the game just recorded is the last element. -/
theorem updatePlayerStats_history_bounded (players : Obj PlayerStats)
    (userId username : String) (score : Int) (isWinner : Bool) (now : Nat) :
    objGet (updatePlayerStatsMap players userId username score isWinner now) userId =
        some (updatePlayerStats (objGet players userId) userId username score isWinner now) ∧
      (updatePlayerStats (objGet players userId) userId username score isWinner now).gamesHistory.length ≤ 50 ∧
      (updatePlayerStats (objGet players userId) userId username score isWinner now).gamesHistory.getLast? =
        some ⟨now, score, isWinner⟩ ∧
      (updatePlayerStats (objGet players userId) userId username score isWinner now).gamesHistory <:+
        (((objGet players userId).getD (defaultStats userId username)).gamesHistory ++
          [⟨now, score, isWinner⟩]) := by
  obtain ⟨h1, h2, h3⟩ := trimmedHistory_spec
    (((objGet players userId).getD (defaultStats userId username)).gamesHistory)
    ⟨now, score, isWinner⟩
  exact ⟨objGet_objSet_self players userId _, h1, h2, h3⟩

end NameThatArtist
